import Mathlib

/-!
# Shallow embedding of the iomap buffered-I/O engine (fs/iomap/buffered-io.c)

This file translates the sub-block state tracker, the read/write actors and
the ioend merge logic of the buffered-I/O engine into Lean, and proves the
frozen claims about them.

Modelling conventions:
* `loff_t`/`size_t` byte positions and lengths are `Nat`; the single place
  where the C code evaluates `isize - 1` on a possibly-zero `loff_t` is
  modelled with `Int` arithmetic (`Int.emod` agrees with the C masking of a
  negative `loff_t` by `folio_size - 1`).  Theorems carry the block-alignment
  hypotheses that every in-tree caller obeys, so `Nat` truncated subtraction
  never diverges from the C `size_t` arithmetic inside them.
* The per-folio uptodate bitmap (`unsigned long uptodate[]`) is a
  `Finset Nat` of set bit indices; `bitmap_set`/`bitmap_full`/`test_bit`
  are translated below.
* Page contents (`zero_user`, `memcpy`) are not modelled: the claims are
  about flags, bitmaps, counters and I/O bookkeeping, never about bytes.
* External collaborators (block layer bio internals, the extent resolver,
  the page cache) are modelled at their interface, as the spec directs.
-/

namespace Iomap

/-- Architecture page constants (`PAGE_SHIFT`, `PAGE_SIZE`). -/
def PAGE_SHIFT : Nat := 12

/-- `struct iomap_page`: the sub-block state record attached to a folio when
block size < folio size.  `uptodate` is the bitmap of valid blocks, kept as
the set of set bit indices. -/
structure IomapPage where
  read_bytes_pending : Int
  write_bytes_pending : Int
  uptodate : Finset Nat
deriving DecidableEq

/-- The folio (cache page) state visible to the engine: its flags and the
optionally attached `iomap_page` record (`page_private`). -/
structure Folio where
  /-- log2 of the folio size in bytes (`folio_size = 2 ^ sizeBits`). -/
  sizeBits : Nat
  /-- file-relative index (`folio->page.index`), in `PAGE_SIZE` units. -/
  index : Nat
  uptodate : Bool
  error : Bool
  dirty : Bool
  locked : Bool
  writeback : Bool
  iop : Option IomapPage
deriving DecidableEq

/-- `folio_size` (always a power of two). -/
def Folio.size (f : Folio) : Nat := 2 ^ f.sizeBits

/-- The inode state the engine reads and writes: block size exponent
(`i_blkbits`), in-memory file size (`i_size`) and the dirty mark used by the
inline write path. -/
structure Inode where
  blkbits : Nat
  isize : Nat
  dirty : Bool
deriving DecidableEq, Repr

/-- `i_blocksize(inode)`. -/
def i_blocksize (inode : Inode) : Nat := 2 ^ inode.blkbits

/-- `offset_in_folio(folio, pos)` for a non-negative position: masking by
`folio_size - 1` is reduction mod the power-of-two size. -/
def offset_in_folio (f : Folio) (pos : Nat) : Nat := pos % f.size

/-- `offset_in_folio` on a signed (`loff_t`) position; `Int.emod` by the
positive size agrees with the C two's-complement masking. -/
def offset_in_folio_i (f : Folio) (pos : Int) : Nat := (pos % (f.size : Int)).toNat

/-- `i_blocks_per_folio(inode, folio)`. -/
def i_blocks_per_folio (inode : Inode) (f : Folio) : Nat := f.size >>> inode.blkbits

/-- `folio_offset(folio)`: byte offset of the folio in the file. -/
def folio_offset (f : Folio) : Nat := f.index <<< PAGE_SHIFT

/-- `to_iomap_page(folio)`: the attached record, when any. -/
def to_iomap_page (f : Folio) : Option IomapPage := f.iop

/-- `folio_has_private(folio)`. -/
def folio_has_private (f : Folio) : Bool := f.iop.isSome

def SetFolioUptodate (f : Folio) : Folio := { f with uptodate := true }

def ClearFolioUptodate (f : Folio) : Folio := { f with uptodate := false }

def SetFolioError (f : Folio) : Folio := { f with error := true }

def ClearFolioError (f : Folio) : Folio := { f with error := false }

def unlock_folio (f : Folio) : Folio := { f with locked := false }

def end_folio_writeback (f : Folio) : Folio := { f with writeback := false }

/-- `test_bit(i, bitmap)`. -/
def test_bit (i : Nat) (b : Finset Nat) : Bool := decide (i ∈ b)

/-- `bitmap_set(bitmap, start, len)`: set `len` bits starting at `start`. -/
def bitmap_set (b : Finset Nat) (start len : Nat) : Finset Nat :=
  b ∪ Finset.Ico start (start + len)

/-- `bitmap_full(bitmap, nbits)`. -/
def bitmap_full (b : Finset Nat) (nbits : Nat) : Bool := decide (Finset.range nbits ⊆ b)

/-- `bitmap_fill(bitmap, nbits)`. -/
def bitmap_fill (nbits : Nat) : Finset Nat := Finset.range nbits

/-- The extent types of `struct iomap` (`IOMAP_HOLE`, ...). -/
inductive IomapType where
  | IOMAP_HOLE
  | IOMAP_DELALLOC
  | IOMAP_MAPPED
  | IOMAP_UNWRITTEN
  | IOMAP_INLINE
deriving DecidableEq, Repr

open IomapType

/-- `struct iomap`: a resolver-returned extent descriptor.  The flag bits the
engine reads (`IOMAP_F_NEW`, `IOMAP_F_SHARED`, `IOMAP_F_BUFFER_HEAD`) and the
one it sets (`IOMAP_F_SIZE_CHANGED`) are individual booleans. -/
structure Iomap where
  type : IomapType
  offset : Nat
  length : Nat
  /-- disk address in bytes (`iomap->addr`). -/
  addr : Nat
  flag_new : Bool
  flag_shared : Bool
  flag_buffer_head : Bool
  flag_size_changed : Bool
deriving DecidableEq, Repr

/-- `iomap_page_create(inode, folio)`: lazily attach a sub-block record when
the folio spans more than one block; a folio already fully uptodate starts
with a filled bitmap. -/
def iomap_page_create (inode : Inode) (folio : Folio) : Folio :=
  if folio.iop.isSome ∨ i_blocks_per_folio inode folio ≤ 1 then folio
  else
    { folio with
      iop := some
        { read_bytes_pending := 0
          write_bytes_pending := 0
          uptodate :=
            if folio.uptodate then bitmap_fill (i_blocks_per_folio inode folio) else ∅ } }

/-- `iomap_iop_set_range_uptodate(folio, off, len)`: set the bitmap bits of
the blocks covered by `[off, off+len)` and, if the bitmap became full, the
folio's uptodate flag.  (The C code is only reached with a record attached;
with none attached nothing is modelled to happen.) -/
def iomap_iop_set_range_uptodate (inode : Inode) (folio : Folio) (off len : Nat) : Folio :=
  match folio.iop with
  | none => folio
  | some iop =>
    let first := off >>> inode.blkbits
    let last := (off + len - 1) >>> inode.blkbits
    let bits := bitmap_set iop.uptodate first (last - first + 1)
    let folio' := { folio with iop := some { iop with uptodate := bits } }
    if bitmap_full bits (i_blocks_per_folio inode folio) then SetFolioUptodate folio'
    else folio'

/-- `iomap_set_range_uptodate(folio, off, len)`. -/
def iomap_set_range_uptodate (inode : Inode) (folio : Folio) (off len : Nat) : Folio :=
  if folio.error then folio
  else if folio_has_private folio then iomap_iop_set_range_uptodate inode folio off len
  else SetFolioUptodate folio

/-- `iomap_finish_folio_read(folio, offset, len, error)`: read-completion
bookkeeping for one folio range. -/
def iomap_finish_folio_read (inode : Inode) (folio : Folio) (offset len : Nat)
    (error : Int) : Folio :=
  let folio :=
    if error ≠ 0 then SetFolioError (ClearFolioUptodate folio)
    else iomap_set_range_uptodate inode folio offset len
  match folio.iop with
  | none => unlock_folio folio
  | some iop =>
    let iop' := { iop with read_bytes_pending := iop.read_bytes_pending - (len : Int) }
    let folio' := { folio with iop := some iop' }
    if iop'.read_bytes_pending = 0 then unlock_folio folio' else folio'

/-- `iomap_finish_folio_write(inode, folio, len, error)`: writeback-completion
bookkeeping for one folio range. -/
def iomap_finish_folio_write (_inode : Inode) (folio : Folio) (len : Nat)
    (error : Int) : Folio :=
  let folio := if error ≠ 0 then SetFolioError folio else folio
  match folio.iop with
  | none => end_folio_writeback folio
  | some iop =>
    let iop' := { iop with write_bytes_pending := iop.write_bytes_pending - (len : Int) }
    let folio' := { folio with iop := some iop' }
    if iop'.write_bytes_pending = 0 then end_folio_writeback folio' else folio'

/-! ## `iomap_adjust_read_range` -/

/-- The first `for` loop of `iomap_adjust_read_range`, recursing on the
count of blocks left to inspect: how many consecutive blocks starting at `i`
(and not beyond the loop bound) are marked uptodate. -/
def leadSkipAux (bits : Finset Nat) : Nat → Nat → Nat
  | 0, _ => 0
  | n + 1, i => if i ∈ bits then leadSkipAux bits n (i + 1) + 1 else 0

/-- `for (i = first; i <= last; i++) { if (!test_bit(i, ...)) break; ... }`:
the number of leading uptodate blocks in `[i, last]`. -/
def leadSkip (bits : Finset Nat) (i last : Nat) : Nat :=
  leadSkipAux bits (last + 1 - i) i

/-- The second `for` loop of `iomap_adjust_read_range`, recursing on the
count of blocks left to inspect. -/
def firstSetAux (bits : Finset Nat) : Nat → Nat → Option Nat
  | 0, _ => none
  | n + 1, i => if i ∈ bits then some i else firstSetAux bits n (i + 1)

/-- `for ( ; i <= last; i++) { if (test_bit(i, ...)) { ...; break; } }`: the
first block index in `[i, last]` that is marked uptodate, when any. -/
def firstSet (bits : Finset Nat) (i last : Nat) : Option Nat :=
  firstSetAux bits (last + 1 - i) i

/-- The `(pos, *offp, *lenp)` triple produced by `iomap_adjust_read_range`. -/
structure AdjustResult where
  pos : Nat
  poff : Nat
  plen : Nat
deriving DecidableEq, Repr

/-- `iomap_adjust_read_range(inode, folio, &pos, length, &offp, &lenp)`:
shrink the requested sub-range to what actually needs reading, skipping the
leading uptodate blocks, truncating before the first uptodate block found
after them, and clipping blocks wholly beyond the block containing
`i_size - 1` when the original range straddles `i_size`. -/
def iomap_adjust_read_range (inode : Inode) (folio : Folio) (pos length : Nat) :
    AdjustResult :=
  let orig_pos := pos
  let isize := inode.isize
  let block_bits := inode.blkbits
  let block_size := 2 ^ block_bits
  let poff := offset_in_folio folio pos
  let plen := min (folio.size - poff) length
  let first := poff >>> block_bits
  let last := (poff + plen - 1) >>> block_bits
  let st :=
    match to_iomap_page folio with
    | none => (pos, poff, plen, first, last)
    | some iop =>
      let n := leadSkip iop.uptodate first last
      let pos := pos + n * block_size
      let poff := poff + n * block_size
      let plen := plen - n * block_size
      let first := first + n
      match firstSet iop.uptodate first last with
      | some j => (pos, poff, plen - (last - j + 1) * block_size, first, j - 1)
      | none => (pos, poff, plen, first, last)
  let (pos, poff, plen, first, last) := st
  let plen :=
    if orig_pos ≤ isize ∧ isize < orig_pos + length then
      let endBlk := offset_in_folio_i folio ((isize : Int) - 1) >>> block_bits
      if first ≤ endBlk ∧ endBlk < last then plen - (last - endBlk) * block_size
      else plen
    else plen
  ⟨pos, poff, plen⟩

/-! ## Read actors -/

/-- `iomap_block_needs_zeroing(inode, iomap, pos)`. -/
def iomap_block_needs_zeroing (inode : Inode) (iomap : Iomap) (pos : Nat) : Bool :=
  iomap.type ≠ IOMAP_MAPPED ∨ iomap.flag_new ∨ inode.isize ≤ pos

/-- The engine-visible state of a read `struct bio`: its starting sector, the
payload bytes and segments added so far, and its capacity.  Segment-level
bio internals belong to the I/O submission layer, which the spec treats as
external. -/
structure Bio where
  sector : Nat
  bytes : Nat
  vecs : Nat
  maxVecs : Nat
  rahead : Bool
deriving DecidableEq, Repr

/-- `struct iomap_readpage_ctx` together with the requests submitted so far
(`submit_bio` is fire-and-forget; we record what was handed over). -/
structure ReadCtx where
  cur_folio_in_bio : Bool
  bio : Option Bio
  rac : Bool
  submitted : List Bio
deriving DecidableEq, Repr

/-- The `for (poff = 0; poff < folio_size(folio); poff += ret)` loop of
`iomap_readpage`.  `applyFn` is the extent iterator `iomap_apply`.
Modelled from the spec: `iomap_apply` (spec §4.2) is outside the provided
sources; it resolves the next extent and invokes the actor, returning the
bytes advanced or a negative error while the actor updates the read context
and the folio, so it is taken here as an arbitrary such transformer. -/
def iomap_readpage_loop (applyFn : Nat → Nat → ReadCtx × Folio → Int × ReadCtx × Folio)
    (fsize foff : Nat) : Nat → ReadCtx × Folio → Nat → ReadCtx × Folio
  | 0, st, _ => st
  | fuel + 1, st, poff =>
    if poff < fsize then
      let out := applyFn (foff + poff) (fsize - poff) st
      if out.1 ≤ 0 then (out.2.1, SetFolioError out.2.2)
      else iomap_readpage_loop applyFn fsize foff fuel out.2 (poff + out.1.toNat)
    else st

/-- `iomap_readpage(folio, ops)`: run the extent iterator over the whole
folio; on any failure just mark the folio with an error; finally submit the
accumulated request or, if none, unlock the folio — and return 0.  A
continuing iteration advances `poff` by at least one byte, so
`folio_size + 1` iterations always suffice; the fuel argument of the loop
only drives the structural recursion. -/
def iomap_readpage
    (applyFn : Nat → Nat → ReadCtx × Folio → Int × ReadCtx × Folio)
    (folio : Folio) : Int × ReadCtx × Folio :=
  let ctx : ReadCtx := { cur_folio_in_bio := false, bio := none, rac := false, submitted := [] }
  let st := iomap_readpage_loop applyFn folio.size (folio_offset folio)
    (folio.size + 1) (ctx, folio) 0
  match st.1.bio with
  | some b => (0, { st.1 with bio := none, submitted := st.1.submitted ++ [b] }, st.2)
  | none => (0, st.1, unlock_folio st.2)

/-! ## `iomap_is_partially_uptodate` -/

/-- `iomap_is_partially_uptodate(folio, from, count)`: false without an
attached record; otherwise true exactly when every block of the queried
range, clipped to the folio, is marked uptodate. -/
def iomap_is_partially_uptodate (inode : Inode) (folio : Folio) (fromB count : Nat) :
    Bool :=
  match to_iomap_page folio with
  | none => false
  | some iop =>
    let len := min (folio.size - fromB) count
    let first := fromB >>> inode.blkbits
    let last := (fromB + len - 1) >>> inode.blkbits
    decide (∀ i, first ≤ i → i ≤ last → i ∈ iop.uptodate)

/-! ## Write path -/

/-- Modelled from the spec: `iomap_set_page_dirty` is only declared, not
defined, in the provided sources; per the spec, write-end "marks the page
dirty". -/
def iomap_set_page_dirty (folio : Folio) : Folio := { folio with dirty := true }

/-- The `do { ... } while ((block_start += plen) < block_end)` loop of
`__iomap_write_begin`.  `readStatus` gives `iomap_read_folio_sync`'s result
for a given block position (the synchronous read transport is external).
The C code mutates the folio in place and returns an `int` status, so the
model returns the pair. -/
def __iomap_write_begin_loop (inode : Inode) (srcmap : Iomap) (readStatus : Nat → Int)
    (fromOff toOff : Nat) (unshare : Bool) (block_end : Nat) :
    Nat → Folio → Nat → Int × Folio
  | 0, folio, _ => (0, folio)
  | fuel + 1, folio, block_start =>
    let r := iomap_adjust_read_range inode folio block_start (block_end - block_start)
    if r.plen = 0 then (0, folio)
    else
      let step : Int × Folio :=
        if ¬unshare ∧ (fromOff ≤ r.poff ∨ r.poff + r.plen ≤ fromOff) ∧
            (toOff ≤ r.poff ∨ r.poff + r.plen ≤ toOff) then
          (0, folio)
        else if iomap_block_needs_zeroing inode srcmap r.pos then
          if unshare then (-5, folio)
          else (0, iomap_set_range_uptodate inode folio r.poff r.plen)
        else if readStatus r.pos ≠ 0 then (readStatus r.pos, folio)
        else (0, iomap_set_range_uptodate inode folio r.poff r.plen)
      if step.1 ≠ 0 then step
      else if r.pos + r.plen < block_end then
        __iomap_write_begin_loop inode srcmap readStatus fromOff toOff unshare block_end
          fuel step.2 (r.pos + r.plen)
      else step

/-- `__iomap_write_begin(inode, pos, len, flags, folio, srcmap)`: make sure
every block touched by the upcoming copy holds valid data first, zero-filling
or synchronously reading as dictated by the source extent.  The do-while loop
advances `block_start` by at least one byte per continuing iteration, so
`block_end - block_start + 1` iterations always suffice; the fuel argument
only drives the structural recursion. -/
def __iomap_write_begin (inode : Inode) (pos len : Nat) (unshare : Bool)
    (folio : Folio) (srcmap : Iomap) (readStatus : Nat → Int) : Int × Folio :=
  let block_size := i_blocksize inode
  let block_start := block_size * (pos / block_size)
  let block_end := block_size * ((pos + len + block_size - 1) / block_size)
  let fromOff := offset_in_folio folio pos
  let toOff := fromOff + len
  let folio := iomap_page_create inode folio
  if folio.uptodate then (0, folio)
  else
    __iomap_write_begin_loop inode srcmap readStatus fromOff toOff unshare block_end
      (block_end - block_start + 1) (ClearFolioError folio) block_start

/-- `__iomap_write_end(inode, pos, len, copied, folio)`: a short copy into a
folio that is not fully uptodate is reported as zero bytes written and
changes nothing; otherwise the whole requested range is marked valid, the
folio is dirtied and `copied` is returned. -/
def __iomap_write_end (inode : Inode) (pos len copied : Nat) (folio : Folio) :
    Nat × Folio :=
  if copied < len ∧ folio.uptodate = false then (0, folio)
  else
    let folio := iomap_set_range_uptodate inode folio (offset_in_folio folio pos) len
    (copied, iomap_set_page_dirty folio)

/-- `iomap_write_end_inline`: copy the bytes back into the inline payload
(contents are not modelled) and mark the inode dirty; reports all `copied`
bytes. -/
def iomap_write_end_inline (inode : Inode) (folio : Folio) (copied : Nat) :
    Nat × Inode × Folio :=
  (copied, { inode with dirty := true }, folio)

/-- Modelled from the spec: `block_write_end` (the legacy buffer-head write
path, fs/buffer.c) is outside the provided sources, and the spec excludes
buffer-head special cases from the engine's scope; it is modelled after the
spec's write_end contract — a short copy into a not-fully-uptodate page is
accounted as zero bytes, otherwise the copied bytes are accounted and the
page is dirtied. -/
def block_write_end (pos len copied : Nat) (folio : Folio) : Nat × Folio :=
  let _ := pos
  if copied < len ∧ folio.uptodate = false then (0, folio)
  else (copied, { folio with dirty := true })

/-- `iomap_write_end(inode, pos, len, copied, folio, iomap, srcmap)`:
dispatch to the inline / buffer-head / normal write-end, then grow the
recorded file size when the accounted bytes reach past it (flagging
`IOMAP_F_SIZE_CHANGED`), and unlock the folio.  (`pagecache_isize_extended`,
the `page_done` hook, the folio reference drop and the `iomap_write_failed`
truncation act outside the modelled folio/inode state.) -/
def iomap_write_end (inode : Inode) (pos len copied : Nat) (folio : Folio)
    (iomap srcmap : Iomap) : Nat × Inode × Folio × Iomap :=
  let old_size := inode.isize
  let st :=
    if srcmap.type = IOMAP_INLINE then
      iomap_write_end_inline inode folio copied
    else if srcmap.flag_buffer_head then
      let o := block_write_end pos len copied folio
      (o.1, inode, o.2)
    else
      let o := __iomap_write_end inode pos len copied folio
      (o.1, inode, o.2)
  let ret := st.1
  let inode' := st.2.1
  let folio' := st.2.2
  let upd :=
    if old_size < pos + ret then
      ({ inode' with isize := pos + ret }, { iomap with flag_size_changed := true })
    else (inode', iomap)
  (ret, upd.1, unlock_folio folio', upd.2)

/-! ## Ioend merging -/

/-- The ioend state `iomap_ioend_can_merge` consults: the completion status
of its bio chain (`io_bio->bi_status`), the `IOMAP_F_SHARED` bit of
`io_flags`, the extent type, and the accumulated file range. -/
structure Ioend where
  status : Int
  shared : Bool
  io_type : IomapType
  io_offset : Nat
  io_size : Nat
deriving DecidableEq, Repr

/-- `iomap_ioend_can_merge(ioend, next)`. -/
def iomap_ioend_can_merge (ioend nxt : Ioend) : Bool :=
  if ioend.status ≠ nxt.status then false
  else if ioend.shared ≠ nxt.shared then false
  else if (ioend.io_type = IOMAP_UNWRITTEN) ≠ (nxt.io_type = IOMAP_UNWRITTEN) then false
  else if ioend.io_offset + ioend.io_size ≠ nxt.io_offset then false
  else true

/-- `iomap_ioend_try_merge(ioend, more_ioends, merge_private)`: fold every
leading mergeable ioend of the queue into `ioend`, accumulating sizes, and
stop at the first that cannot merge.  (The queued entries are moved onto
`ioend->io_list`; the optional `merge_private` filesystem hook is external.)
Returns the grown ioend and the remaining queue. -/
def iomap_ioend_try_merge (ioend : Ioend) (more_ioends : List Ioend) :
    Ioend × List Ioend :=
  match more_ioends with
  | [] => (ioend, [])
  | nxt :: rest =>
    if iomap_ioend_can_merge ioend nxt then
      iomap_ioend_try_merge { ioend with io_size := ioend.io_size + nxt.io_size } rest
    else (ioend, nxt :: rest)

/-! ## Predicates used by the claims -/

/-- The spec's sub-block invariant for one folio: when a record is attached,
its bitmap is full exactly when the folio's uptodate flag is set. -/
def bitmap_flag_inv (inode : Inode) (folio : Folio) : Bool :=
  match folio.iop with
  | none => true
  | some iop => bitmap_full iop.uptodate (i_blocks_per_folio inode folio) == folio.uptodate

/-- Whether a folio has an attached record whose bitmap is already full. -/
def iop_bitmap_full (inode : Inode) (folio : Folio) : Bool :=
  match folio.iop with
  | none => false
  | some iop => bitmap_full iop.uptodate (i_blocks_per_folio inode folio)

/-- Whether the blocks covered by `[off, off+len)` are all marked valid, at
the granularity the folio tracks: in the bitmap when a record is attached,
by the folio flag otherwise. -/
def range_valid (inode : Inode) (folio : Folio) (off len : Nat) : Bool :=
  match folio.iop with
  | none => folio.uptodate
  | some iop => decide (∀ k, off ≤ k → k < off + len → k >>> inode.blkbits ∈ iop.uptodate)

/-- The trailing-run count used by the claim's reading of
`iomap_adjust_read_range`: how many consecutive blocks ending at `last` (and
not before `first`) are marked uptodate. -/
def trailSkipAux (bits : Finset Nat) : Nat → Nat → Nat
  | 0, _ => 0
  | n + 1, last => if last ∈ bits then trailSkipAux bits n (last - 1) + 1 else 0

/-- The number of trailing uptodate blocks in `[first, last]`. -/
def trailSkip (bits : Finset Nat) (first last : Nat) : Nat :=
  trailSkipAux bits (last + 1 - first) last

/-- Follows the claim's words (C3), for comparison with the source
translation `iomap_adjust_read_range`: shrink the requested range by whole
blocks, skipping every leading block already marked valid and trimming every
trailing run of valid blocks, and, when the original range starts at or
before end-of-file and extends past it, excluding the blocks lying entirely
beyond the block containing the last valid file byte. -/
def claim_adjust_read_range (inode : Inode) (folio : Folio) (pos length : Nat) :
    AdjustResult :=
  let orig_pos := pos
  let isize := inode.isize
  let block_bits := inode.blkbits
  let block_size := 2 ^ block_bits
  let poff := offset_in_folio folio pos
  let plen := min (folio.size - poff) length
  let first := poff >>> block_bits
  let last := (poff + plen - 1) >>> block_bits
  let st :=
    match to_iomap_page folio with
    | none => (pos, poff, plen, first, last)
    | some iop =>
      let n := leadSkip iop.uptodate first last
      let pos := pos + n * block_size
      let poff := poff + n * block_size
      let plen := plen - n * block_size
      let first := first + n
      let t := trailSkip iop.uptodate first last
      (pos, poff, plen - t * block_size, first, last - t)
  let (pos, poff, plen, first, last) := st
  let plen :=
    if orig_pos ≤ isize ∧ isize < orig_pos + length then
      let endBlk := offset_in_folio_i folio ((isize : Int) - 1) >>> block_bits
      if endBlk < last then
        if first ≤ endBlk then plen - (last - endBlk) * block_size else 0
      else plen
    else plen
  ⟨pos, poff, plen⟩

/-! ## Concrete states used by the closed theorems -/

/-- 1024-byte blocks, 8192-byte file. -/
def inode_1k : Inode := ⟨10, 8192, false⟩

/-- A record tracking 4 blocks with only block 1 valid. -/
def iop_b1 : IomapPage := ⟨0, 0, {1}⟩

/-- A 4096-byte folio over `inode_1k` (4 blocks), block 1 valid. -/
def folio_b1 : Folio := ⟨12, 0, false, false, false, true, false, some iop_b1⟩

/-- 512-byte blocks, 100000-byte file. -/
def inode_512 : Inode := ⟨9, 100000, false⟩

/-- A record tracking 8 blocks, all valid, with 512 read bytes pending. -/
def iop_full8 : IomapPage := ⟨512, 0, Finset.range 8⟩

/-- A fully-uptodate 4096-byte folio over `inode_512` (8 blocks). -/
def folio_full8 : Folio := ⟨12, 0, true, false, false, true, false, some iop_full8⟩

/-- 512-byte blocks, empty file. -/
def inode_empty : Inode := ⟨9, 0, false⟩

/-- A locked folio with no attached record and no flag set. -/
def folio_plain : Folio := ⟨12, 0, false, false, false, true, false, none⟩

/-- A folio with its error flag set. -/
def folio_err : Folio := ⟨12, 0, false, true, false, true, false, none⟩

/-- A plain mapped extent covering the first 8192 bytes. -/
def map_mapped : Iomap := ⟨IOMAP_MAPPED, 0, 8192, 0, false, false, false, false⟩

/-- The initial read context of `iomap_readpage`. -/
def ctx_empty : ReadCtx := ⟨false, none, false, []⟩

/-- A successfully completed ioend for bytes `[0, 4096)`. -/
def ioend_a : Ioend := ⟨0, false, IOMAP_MAPPED, 0, 4096⟩

/-- A successfully completed ioend for bytes `[4096, 8192)`. -/
def ioend_b : Ioend := ⟨0, false, IOMAP_MAPPED, 4096, 4096⟩

/-- An extent iterator that always fails with `-EIO`-style status. -/
def apply_fail : Nat → Nat → ReadCtx × Folio → Int × ReadCtx × Folio :=
  fun _ _ st => (-5, st)

/-- A synchronous-read transport that always succeeds. -/
def rs_ok : Nat → Int := fun _ => 0

/-- A folio whose uptodate flag is set but which has no attached record. -/
def folio_up_noiop : Folio := ⟨12, 0, true, false, false, true, false, none⟩

/-! # Theorems -/

/-! ## C8: mark_valid on an error folio changes nothing -/

/-- C8: for every folio whose error flag is set, `iomap_set_range_uptodate`
returns the folio completely unchanged, for any offset and length. -/
theorem c8_set_range_uptodate_error_frame (inode : Inode) (folio : Folio)
    (off len : Nat) (herr : folio.error = true) :
    iomap_set_range_uptodate inode folio off len = folio := by
  simp [iomap_set_range_uptodate, herr]

/-- Witness for C8 at a concrete error folio. -/
theorem c8_set_range_uptodate_error_frame_witness :
    folio_err.error = true ∧ iomap_set_range_uptodate inode_512 folio_err 3 7 = folio_err :=
  ⟨rfl, c8_set_range_uptodate_error_frame inode_512 folio_err 3 7 rfl⟩

/-! ## C4: ioend merge conditions -/

/-- C4: `iomap_ioend_can_merge` holds exactly for equal completion status,
equal SHARED state, equal Unwritten-ness and byte contiguity, and
`iomap_ioend_try_merge` on a queue holding one ioend merges it (summing the
sizes) exactly when `can_merge` allows it. -/
theorem c4_ioend_merge (a b : Ioend) :
    (iomap_ioend_can_merge a b = true ↔
      (a.status = b.status ∧ a.shared = b.shared ∧
        ((a.io_type = IOMAP_UNWRITTEN) ↔ (b.io_type = IOMAP_UNWRITTEN)) ∧
        a.io_offset + a.io_size = b.io_offset)) ∧
    (iomap_ioend_can_merge a b = true →
      iomap_ioend_try_merge a [b] = ({ a with io_size := a.io_size + b.io_size }, [])) ∧
    (iomap_ioend_can_merge a b = false →
      iomap_ioend_try_merge a [b] = (a, [b])) := by
  refine ⟨?_, ?_, ?_⟩
  · unfold iomap_ioend_can_merge
    split_ifs with h1 h2 h3 h4 <;> simp_all
  · intro h
    simp [iomap_ioend_try_merge, h]
  · intro h
    simp [iomap_ioend_try_merge, h]

/-- Witness for C4: two contiguous, same-status, same-flags ioends merge
into one of summed length. -/
theorem c4_ioend_merge_witness :
    iomap_ioend_can_merge ioend_a ioend_b = true ∧
    iomap_ioend_try_merge ioend_a [ioend_b] =
      ({ ioend_a with io_size := ioend_a.io_size + ioend_b.io_size }, []) :=
  ⟨by decide, (c4_ioend_merge ioend_a ioend_b).2.1 (by decide)⟩

/-! ## C10: iomap_is_partially_uptodate -/

/-- C10: without an attached record the query is false — even on a folio
whose uptodate flag is set — and with a record it is true exactly when every
block touching the queried range, clipped to the folio, is marked valid. -/
theorem c10_is_partially_uptodate (inode : Inode) (folio : Folio) (fromB count : Nat)
    (hc : 0 < count) (hf : fromB < folio.size) :
    (to_iomap_page folio = none →
      iomap_is_partially_uptodate inode folio fromB count = false) ∧
    (∀ iop, to_iomap_page folio = some iop →
      (iomap_is_partially_uptodate inode folio fromB count = true ↔
        ∀ k, fromB ≤ k → k < fromB + min (folio.size - fromB) count →
          k >>> inode.blkbits ∈ iop.uptodate)) := by
  constructor
  · intro h
    simp [iomap_is_partially_uptodate, h]
  · intro iop hiop
    simp only [iomap_is_partially_uptodate, hiop, decide_eq_true_eq]
    have hbs : 0 < 2 ^ inode.blkbits := Nat.two_pow_pos _
    have hlenpos : 0 < min (folio.size - fromB) count := lt_min (by omega) hc
    constructor
    · intro hall k hk1 hk2
      refine hall _ ?_ ?_
      · simp only [Nat.shiftRight_eq_div_pow]
        exact Nat.div_le_div_right hk1
      · simp only [Nat.shiftRight_eq_div_pow]
        exact Nat.div_le_div_right (by omega)
    · intro hall i hi1 hi2
      simp only [Nat.shiftRight_eq_div_pow] at hi1 hi2
      rcases le_total (i * 2 ^ inode.blkbits) fromB with hc1 | hc1
      · have hieq : i = fromB / 2 ^ inode.blkbits :=
          le_antisymm ((Nat.le_div_iff_mul_le hbs).mpr hc1) hi1
        have := hall fromB le_rfl (by omega)
        simpa [Nat.shiftRight_eq_div_pow, hieq] using this
      · have hk2 : i * 2 ^ inode.blkbits <
            fromB + min (folio.size - fromB) count := by
          have h1 : i * 2 ^ inode.blkbits ≤
              (fromB + min (folio.size - fromB) count - 1) /
                2 ^ inode.blkbits * 2 ^ inode.blkbits :=
            Nat.mul_le_mul_right _ hi2
          have h2 := Nat.div_mul_le_self
            (fromB + min (folio.size - fromB) count - 1) (2 ^ inode.blkbits)
          omega
        have := hall (i * 2 ^ inode.blkbits) hc1 hk2
        simpa [Nat.shiftRight_eq_div_pow, Nat.mul_div_cancel _ hbs] using this

/-- Witness for C10: a folio with its uptodate flag set but no record still
reports false. -/
theorem c10_is_partially_uptodate_witness :
    (0 < (64 : Nat)) ∧ (64 : Nat) < folio_up_noiop.size ∧
    to_iomap_page folio_up_noiop = none ∧
    iomap_is_partially_uptodate inode_512 folio_up_noiop 64 64 = false :=
  ⟨by decide, by decide, rfl,
    (c10_is_partially_uptodate inode_512 folio_up_noiop 64 64 (by decide) (by decide)).1 rfl⟩

/-! ## C2: __iomap_write_end -/

/-- After `iomap_set_range_uptodate` on an error-free folio the written range
is valid at the folio's tracking granularity. -/
theorem range_valid_after_set_range (inode : Inode) (folio : Folio) (off len : Nat)
    (herr : folio.error = false) (hlen : 0 < len) :
    range_valid inode (iomap_set_range_uptodate inode folio off len) off len = true := by
  have hbs : 0 < 2 ^ inode.blkbits := Nat.two_pow_pos _
  unfold iomap_set_range_uptodate iomap_iop_set_range_uptodate
  cases hiop : folio.iop with
  | none =>
    simp [herr, folio_has_private, hiop, range_valid, SetFolioUptodate]
  | some iop =>
    simp only [herr, folio_has_private, hiop, Bool.false_eq_true, if_false,
      Option.isSome_some, if_true]
    have hmem : ∀ k, off ≤ k → k < off + len →
        k >>> inode.blkbits ∈
          bitmap_set iop.uptodate (off >>> inode.blkbits)
            ((off + len - 1) >>> inode.blkbits - off >>> inode.blkbits + 1) := by
      intro k hk1 hk2
      have h1 : off >>> inode.blkbits ≤ k >>> inode.blkbits := by
        simp only [Nat.shiftRight_eq_div_pow]
        exact Nat.div_le_div_right hk1
      have h2 : k >>> inode.blkbits ≤ (off + len - 1) >>> inode.blkbits := by
        simp only [Nat.shiftRight_eq_div_pow]
        exact Nat.div_le_div_right (by omega)
      simp only [bitmap_set, Finset.mem_union, Finset.mem_Ico]
      right
      omega
    split <;> simp [range_valid, SetFolioUptodate] <;>
      exact fun k hk1 hk2 => hmem k hk1 hk2

/-- C2: with `copied < len` on a folio not fully uptodate, `__iomap_write_end`
reports zero bytes and leaves the folio (bitmap and dirty state included)
untouched; otherwise it applies mark_valid to the whole written range, dirties
the folio, and reports `copied` — in particular, on an error-free folio every
block of the range ends up valid. -/
theorem c2_write_end_torn (inode : Inode) (pos len copied : Nat) (folio : Folio)
    (hlen : 0 < len) :
    (copied < len → folio.uptodate = false →
      __iomap_write_end inode pos len copied folio = (0, folio)) ∧
    (copied = len ∨ folio.uptodate = true →
      (__iomap_write_end inode pos len copied folio).1 = copied ∧
      (__iomap_write_end inode pos len copied folio).2 =
        iomap_set_page_dirty
          (iomap_set_range_uptodate inode folio (offset_in_folio folio pos) len) ∧
      (__iomap_write_end inode pos len copied folio).2.dirty = true ∧
      (folio.error = false →
        range_valid inode (__iomap_write_end inode pos len copied folio).2
          (offset_in_folio folio pos) len = true)) := by
  constructor
  · intro h1 h2
    simp [__iomap_write_end, h1, h2]
  · intro h
    have hcond : ¬(copied < len ∧ folio.uptodate = false) := by
      rcases h with h | h
      · omega
      · simp [h]
    refine ⟨by simp [__iomap_write_end, hcond], by simp [__iomap_write_end, hcond],
      by simp [__iomap_write_end, hcond, iomap_set_page_dirty], fun herr => ?_⟩
    have := range_valid_after_set_range inode folio (offset_in_folio folio pos) len herr hlen
    simp only [__iomap_write_end, hcond, if_false]
    simpa [range_valid, iomap_set_page_dirty] using this

/-- Witness for C2: a complete copy into a partially-valid folio is
accounted in full and dirties the folio. -/
theorem c2_write_end_torn_witness :
    (0 : Nat) < 1024 ∧ (1024 : Nat) = 1024 ∧
    (__iomap_write_end inode_1k 0 1024 1024 folio_b1).1 = 1024 ∧
    (__iomap_write_end inode_1k 0 1024 1024 folio_b1).2.dirty = true :=
  ⟨by decide, rfl,
    ((c2_write_end_torn inode_1k 0 1024 1024 folio_b1 (by decide)).2 (Or.inl rfl)).1,
    ((c2_write_end_torn inode_1k 0 1024 1024 folio_b1 (by decide)).2 (Or.inl rfl)).2.2.1⟩

/-! ## C6: iomap_write_end size update and unlock -/

/-- Counterexample to C6 as stated: a torn write (`copied = 1 < len = 2`
into a folio with no valid data, file size 0) has `pos + copied = 1`
exceeding the recorded size `0`, yet the recorded size stays `0` (not
`pos + copied`) and the size-changed flag stays clear, because the code uses
the accounted byte count (here 0), not `copied`. -/
theorem c6_counterexample :
    inode_empty.isize < 0 + 1 ∧
    (iomap_write_end inode_empty 0 2 1 folio_plain map_mapped map_mapped).2.1.isize ≠ 0 + 1 ∧
    (iomap_write_end inode_empty 0 2 1 folio_plain map_mapped map_mapped).2.2.2.flag_size_changed
      = false := by
  decide

/-- C6 amended: `iomap_write_end` always unlocks the folio, and it grows the
recorded size to `pos + r` — flagging `IOMAP_F_SIZE_CHANGED` — exactly when
`pos + r` exceeds it, where `r` is the byte count the call returns (which is
0, not `copied`, for a torn write). -/
theorem c6_write_end_size_unlock (inode : Inode) (pos len copied : Nat) (folio : Folio)
    (iomap srcmap : Iomap) :
    ((iomap_write_end inode pos len copied folio iomap srcmap).2.2.1.locked = false) ∧
    (inode.isize < pos + (iomap_write_end inode pos len copied folio iomap srcmap).1 →
      (iomap_write_end inode pos len copied folio iomap srcmap).2.1.isize =
        pos + (iomap_write_end inode pos len copied folio iomap srcmap).1 ∧
      (iomap_write_end inode pos len copied folio iomap srcmap).2.2.2.flag_size_changed
        = true) ∧
    (¬ inode.isize < pos + (iomap_write_end inode pos len copied folio iomap srcmap).1 →
      (iomap_write_end inode pos len copied folio iomap srcmap).2.1.isize = inode.isize ∧
      (iomap_write_end inode pos len copied folio iomap srcmap).2.2.2 = iomap) := by
  unfold iomap_write_end
  dsimp only
  split_ifs <;> simp_all [unlock_folio, iomap_write_end_inline, block_write_end,
    __iomap_write_end]

/-- Witness for C6: a full write past end-of-file grows the recorded size
and sets the size-changed flag; the folio comes back unlocked. -/
theorem c6_write_end_size_unlock_witness :
    inode_empty.isize < 0 + (iomap_write_end inode_empty 0 4 4 folio_plain
      map_mapped map_mapped).1 ∧
    (iomap_write_end inode_empty 0 4 4 folio_plain map_mapped map_mapped).2.2.1.locked
      = false ∧
    (iomap_write_end inode_empty 0 4 4 folio_plain map_mapped map_mapped).2.1.isize =
      0 + (iomap_write_end inode_empty 0 4 4 folio_plain map_mapped map_mapped).1 :=
  ⟨by decide,
    (c6_write_end_size_unlock inode_empty 0 4 4 folio_plain map_mapped map_mapped).1,
    ((c6_write_end_size_unlock inode_empty 0 4 4 folio_plain map_mapped map_mapped).2.1
      (by decide)).1⟩

/-! ## C7: mark_valid is idempotent and union-homomorphic -/

/-- `bitmap_full` is monotone in the bitmap. -/
theorem bitmap_full_mono {b b' : Finset Nat} (h : b ⊆ b') (n : Nat) :
    bitmap_full b n = true → bitmap_full b' n = true := by
  simp only [bitmap_full, decide_eq_true_eq]
  exact fun hsub => hsub.trans h

/-- Explicit form of one `iomap_iop_set_range_uptodate` call on a folio with
an attached record: the bitmap grows by the block interval of the byte range,
and the uptodate flag is set exactly if the grown bitmap is full. -/
theorem iop_set_range_some (inode : Inode) (folio : Folio) (iop : IomapPage)
    (hiop : folio.iop = some iop) (off len : Nat) (hlen : 0 < len) :
    iomap_iop_set_range_uptodate inode folio off len =
      (if bitmap_full (iop.uptodate ∪ Finset.Ico (off >>> inode.blkbits)
            (((off + len - 1) >>> inode.blkbits) + 1)) (i_blocks_per_folio inode folio)
       then { folio with
                iop := some { iop with uptodate := (iop.uptodate ∪
                  Finset.Ico (off >>> inode.blkbits)
                    (((off + len - 1) >>> inode.blkbits) + 1)) }
                uptodate := true }
       else { folio with iop := some { iop with uptodate := (iop.uptodate ∪
                Finset.Ico (off >>> inode.blkbits)
                  (((off + len - 1) >>> inode.blkbits) + 1)) } }) := by
  have hfl : off >>> inode.blkbits ≤ (off + len - 1) >>> inode.blkbits := by
    simp only [Nat.shiftRight_eq_div_pow]
    exact Nat.div_le_div_right (by omega)
  unfold iomap_iop_set_range_uptodate
  simp only [hiop]
  have hbits : bitmap_set iop.uptodate (off >>> inode.blkbits)
      ((off + len - 1) >>> inode.blkbits - off >>> inode.blkbits + 1) =
      iop.uptodate ∪ Finset.Ico (off >>> inode.blkbits)
        (((off + len - 1) >>> inode.blkbits) + 1) := by
    unfold bitmap_set
    congr 1
    congr 1
    simp only [Nat.shiftRight_eq_div_pow] at hfl ⊢
    omega
  rw [hbits]
  rfl

/-- Two consecutive `iomap_iop_set_range_uptodate` calls accumulate the union
of the two block intervals; the flag outcome depends only on the final
bitmap. -/
theorem iop_set_range_twice (inode : Inode) (folio : Folio) (iop : IomapPage)
    (hiop : folio.iop = some iop) (o1 l1 o2 l2 : Nat) (hl1 : 0 < l1) (hl2 : 0 < l2) :
    iomap_iop_set_range_uptodate inode (iomap_iop_set_range_uptodate inode folio o1 l1)
        o2 l2 =
      (if bitmap_full (iop.uptodate ∪
            (Finset.Ico (o1 >>> inode.blkbits) (((o1 + l1 - 1) >>> inode.blkbits) + 1) ∪
             Finset.Ico (o2 >>> inode.blkbits) (((o2 + l2 - 1) >>> inode.blkbits) + 1)))
          (i_blocks_per_folio inode folio)
       then { folio with
                iop := some { iop with uptodate := iop.uptodate ∪
                  (Finset.Ico (o1 >>> inode.blkbits) (((o1 + l1 - 1) >>> inode.blkbits) + 1) ∪
                   Finset.Ico (o2 >>> inode.blkbits) (((o2 + l2 - 1) >>> inode.blkbits) + 1)) }
                uptodate := true }
       else { folio with
                iop := some { iop with uptodate := iop.uptodate ∪
                  (Finset.Ico (o1 >>> inode.blkbits) (((o1 + l1 - 1) >>> inode.blkbits) + 1) ∪
                   Finset.Ico (o2 >>> inode.blkbits) (((o2 + l2 - 1) >>> inode.blkbits) + 1)) } }) := by
  rw [iop_set_range_some inode folio iop hiop o1 l1 hl1]
  by_cases hfull1 : bitmap_full (iop.uptodate ∪
      Finset.Ico (o1 >>> inode.blkbits) (((o1 + l1 - 1) >>> inode.blkbits) + 1))
      (i_blocks_per_folio inode folio)
  · rw [if_pos hfull1]
    rw [iop_set_range_some inode _ _ rfl o2 l2 hl2]
    have hsub12 : (iop.uptodate ∪
        Finset.Ico (o1 >>> inode.blkbits) (((o1 + l1 - 1) >>> inode.blkbits) + 1)) ⊆
        iop.uptodate ∪
          (Finset.Ico (o1 >>> inode.blkbits) (((o1 + l1 - 1) >>> inode.blkbits) + 1) ∪
            Finset.Ico (o2 >>> inode.blkbits) (((o2 + l2 - 1) >>> inode.blkbits) + 1)) := by
      rw [← Finset.union_assoc]
      exact Finset.subset_union_left
    have hfull12 := bitmap_full_mono hsub12 (i_blocks_per_folio inode folio) hfull1
    rw [if_pos (by simpa [i_blocks_per_folio, Folio.size, Finset.union_assoc] using hfull12),
      if_pos (by simpa [Finset.union_assoc] using hfull12)]
    simp [Finset.union_assoc]
  · rw [if_neg hfull1]
    rw [iop_set_range_some inode _ _ rfl o2 l2 hl2]
    simp only [i_blocks_per_folio, Folio.size, Finset.union_assoc]

/-- C7: `mark_valid` (`iomap_iop_set_range_uptodate`) on a folio with an
attached record is idempotent, order-insensitive, and two overlapping
in-folio byte ranges produce exactly the state of a single call covering
their union — bitmap and uptodate flag alike. -/
theorem c7_mark_valid_idempotent_union (inode : Inode) (folio : Folio) (iop : IomapPage)
    (hiop : folio.iop = some iop) (o1 l1 o2 l2 : Nat) (hl1 : 0 < l1) (hl2 : 0 < l2)
    (hov1 : o2 ≤ o1 + l1) (hov2 : o1 ≤ o2 + l2) :
    (iomap_iop_set_range_uptodate inode (iomap_iop_set_range_uptodate inode folio o1 l1)
        o1 l1 = iomap_iop_set_range_uptodate inode folio o1 l1) ∧
    (iomap_iop_set_range_uptodate inode (iomap_iop_set_range_uptodate inode folio o1 l1)
        o2 l2 =
      iomap_iop_set_range_uptodate inode (iomap_iop_set_range_uptodate inode folio o2 l2)
        o1 l1) ∧
    (iomap_iop_set_range_uptodate inode (iomap_iop_set_range_uptodate inode folio o1 l1)
        o2 l2 =
      iomap_iop_set_range_uptodate inode folio (min o1 o2)
        (max (o1 + l1) (o2 + l2) - min o1 o2)) := by
  have hbs : 0 < 2 ^ inode.blkbits := Nat.two_pow_pos _
  refine ⟨?_, ?_, ?_⟩
  · rw [iop_set_range_twice inode folio iop hiop o1 l1 o1 l1 hl1 hl1,
      iop_set_range_some inode folio iop hiop o1 l1 hl1]
    simp
  · rw [iop_set_range_twice inode folio iop hiop o1 l1 o2 l2 hl1 hl2,
      iop_set_range_twice inode folio iop hiop o2 l2 o1 l1 hl2 hl1,
      Finset.union_comm (Finset.Ico (o1 >>> inode.blkbits) _)]
  · rw [iop_set_range_twice inode folio iop hiop o1 l1 o2 l2 hl1 hl2,
      iop_set_range_some inode folio iop hiop (min o1 o2)
        (max (o1 + l1) (o2 + l2) - min o1 o2) (by omega)]
    have hIco : Finset.Ico (o1 >>> inode.blkbits) (((o1 + l1 - 1) >>> inode.blkbits) + 1) ∪
        Finset.Ico (o2 >>> inode.blkbits) (((o2 + l2 - 1) >>> inode.blkbits) + 1) =
        Finset.Ico (min o1 o2 >>> inode.blkbits)
          (((min o1 o2 + (max (o1 + l1) (o2 + l2) - min o1 o2) - 1)
            >>> inode.blkbits) + 1) := by
      simp only [Nat.shiftRight_eq_div_pow]
      have hminmax : min o1 o2 + (max (o1 + l1) (o2 + l2) - min o1 o2) - 1 =
          max (o1 + l1) (o2 + l2) - 1 := by omega
      rw [hminmax]
      have h21 : o2 / 2 ^ inode.blkbits ≤ (o1 + l1 - 1) / 2 ^ inode.blkbits + 1 := by
        have h1 : o2 ≤ (o1 + l1 - 1) + 2 ^ inode.blkbits := by omega
        have h2 := Nat.div_le_div_right (c := 2 ^ inode.blkbits) h1
        rwa [Nat.add_div_right _ hbs] at h2
      have h12 : o1 / 2 ^ inode.blkbits ≤ (o2 + l2 - 1) / 2 ^ inode.blkbits + 1 := by
        have h1 : o1 ≤ (o2 + l2 - 1) + 2 ^ inode.blkbits := by omega
        have h2 := Nat.div_le_div_right (c := 2 ^ inode.blkbits) h1
        rwa [Nat.add_div_right _ hbs] at h2
      rw [Finset.Ico_union_Ico' h21 h12]
      congr 1
      · rcases le_total o1 o2 with h | h
        · rw [min_eq_left h, min_eq_left (Nat.div_le_div_right h)]
        · rw [min_eq_right h, min_eq_right (Nat.div_le_div_right h)]
      · rcases le_total (o1 + l1) (o2 + l2) with h | h
        · rw [max_eq_right h, max_eq_right
            (Nat.add_le_add_right (Nat.div_le_div_right (by omega)) 1)]
        · rw [max_eq_left h, max_eq_left
            (Nat.add_le_add_right (Nat.div_le_div_right (by omega)) 1)]
    rw [hIco]

/-- Witness for C7 at two overlapping 2-block ranges of a 4-block folio. -/
theorem c7_mark_valid_idempotent_union_witness :
    folio_b1.iop = some iop_b1 ∧ (0 : Nat) < 2048 ∧ (1024 : Nat) ≤ 0 + 2048 ∧
    (0 : Nat) ≤ 1024 + 2048 ∧
    iomap_iop_set_range_uptodate inode_1k
        (iomap_iop_set_range_uptodate inode_1k folio_b1 0 2048) 1024 2048 =
      iomap_iop_set_range_uptodate inode_1k folio_b1 (min 0 1024)
        (max (0 + 2048) (1024 + 2048) - min 0 1024) :=
  ⟨rfl, by decide, by decide, by decide,
    (c7_mark_valid_idempotent_union inode_1k folio_b1 iop_b1 rfl 0 2048 1024 2048
      (by decide) (by decide) (by decide) (by decide)).2.2⟩

/-! ## C3: iomap_adjust_read_range -/

/-- The leading-skip loop never counts more blocks than it inspects. -/
theorem leadSkipAux_le (bits : Finset Nat) (n : Nat) :
    ∀ i, leadSkipAux bits n i ≤ n := by
  induction n with
  | zero => intro i; simp [leadSkipAux]
  | succ m ih =>
    intro i
    unfold leadSkipAux
    split
    · exact Nat.succ_le_succ (ih (i + 1))
    · exact Nat.zero_le _

/-- Every block skipped by the leading-skip loop is marked uptodate. -/
theorem leadSkipAux_mem (bits : Finset Nat) (n : Nat) :
    ∀ i k, k < leadSkipAux bits n i → i + k ∈ bits := by
  induction n with
  | zero => intro i k hk; simp [leadSkipAux] at hk
  | succ m ih =>
    intro i k hk
    unfold leadSkipAux at hk
    by_cases hmem : i ∈ bits
    · rw [if_pos hmem] at hk
      rcases k with _ | k'
      · simpa using hmem
      · have h1 := ih (i + 1) k' (by omega)
        have h2 : i + 1 + k' = i + (k' + 1) := by omega
        rwa [h2] at h1
    · rw [if_neg hmem] at hk
      omega

/-- When the truncation loop finds a block, it is the first uptodate block in
the inspected window. -/
theorem firstSetAux_some (bits : Finset Nat) (n : Nat) :
    ∀ i j, firstSetAux bits n i = some j →
      i ≤ j ∧ j < i + n ∧ j ∈ bits ∧ ∀ k, i ≤ k → k < j → k ∉ bits := by
  induction n with
  | zero => intro i j h; simp [firstSetAux] at h
  | succ m ih =>
    intro i j h
    unfold firstSetAux at h
    by_cases hmem : i ∈ bits
    · rw [if_pos hmem] at h
      obtain rfl : i = j := by simpa using h
      exact ⟨le_refl _, by omega, hmem, fun k hk1 hk2 => absurd (by omega : i < i) (by omega)⟩
    · rw [if_neg hmem] at h
      obtain ⟨h1, h2, h3, h4⟩ := ih (i + 1) j h
      refine ⟨by omega, by omega, h3, ?_⟩
      intro k hk1 hk2
      rcases Nat.eq_or_lt_of_le hk1 with rfl | hlt
      · exact hmem
      · exact h4 k (by omega) hk2

/-- When the truncation loop finds nothing, no inspected block is uptodate. -/
theorem firstSetAux_none (bits : Finset Nat) (n : Nat) :
    ∀ i, firstSetAux bits n i = none → ∀ k, i ≤ k → k < i + n → k ∉ bits := by
  induction n with
  | zero => intro i _ k hk1 hk2; omega
  | succ m ih =>
    intro i h k hk1 hk2
    unfold firstSetAux at h
    by_cases hmem : i ∈ bits
    · rw [if_pos hmem] at h
      exact absurd h (by simp)
    · rw [if_neg hmem] at h
      rcases Nat.eq_or_lt_of_le hk1 with rfl | hlt
      · exact hmem
      · exact ih (i + 1) h k (by omega) (by omega)

/-- Counterexample to C3 as stated: on a 4-block folio whose block 1 alone is
valid, a whole-folio request is truncated by the code to just block 0 (the
span before the first valid block), while the claim's description — skip the
leading valid blocks and trim the trailing valid run — keeps blocks 0–3. -/
theorem c3_counterexample :
    iomap_adjust_read_range inode_1k folio_b1 0 4096 = ⟨0, 0, 1024⟩ ∧
    claim_adjust_read_range inode_1k folio_b1 0 4096 = ⟨0, 0, 4096⟩ := by
  refine ⟨by decide, by decide⟩

/-- C3 amended: on block-aligned input the returned span is contained in the
requested span (clipped to the folio) and only advances the position; when a
record is attached, every skipped leading byte lies in a valid block, no byte
of the returned span lies in a valid block (the code truncates before the
FIRST valid block found after the leading run, not merely before a trailing
run), and — when the request does not straddle end-of-file — the span either
reaches the end of the request or stops exactly at a valid block. -/
theorem c3_adjust_read_range (inode : Inode) (folio : Folio) (pos length : Nat)
    (hb : inode.blkbits ≤ folio.sizeBits)
    (hpos : 2 ^ inode.blkbits ∣ pos) (hlen : 2 ^ inode.blkbits ∣ length)
    (hlen0 : 0 < length) :
    pos ≤ (iomap_adjust_read_range inode folio pos length).pos ∧
    (iomap_adjust_read_range inode folio pos length).pos - pos =
      (iomap_adjust_read_range inode folio pos length).poff -
        offset_in_folio folio pos ∧
    offset_in_folio folio pos ≤ (iomap_adjust_read_range inode folio pos length).poff ∧
    (iomap_adjust_read_range inode folio pos length).poff +
        (iomap_adjust_read_range inode folio pos length).plen ≤
      offset_in_folio folio pos +
        min (folio.size - offset_in_folio folio pos) length ∧
    (∀ iop, to_iomap_page folio = some iop →
      (∀ k, offset_in_folio folio pos ≤ k →
          k < (iomap_adjust_read_range inode folio pos length).poff →
          k >>> inode.blkbits ∈ iop.uptodate) ∧
      (∀ k, (iomap_adjust_read_range inode folio pos length).poff ≤ k →
          k < (iomap_adjust_read_range inode folio pos length).poff +
            (iomap_adjust_read_range inode folio pos length).plen →
          k >>> inode.blkbits ∉ iop.uptodate) ∧
      (¬(pos ≤ inode.isize ∧ inode.isize < pos + length) →
        (iomap_adjust_read_range inode folio pos length).poff +
            (iomap_adjust_read_range inode folio pos length).plen =
          offset_in_folio folio pos +
            min (folio.size - offset_in_folio folio pos) length ∨
        ((iomap_adjust_read_range inode folio pos length).poff +
            (iomap_adjust_read_range inode folio pos length).plen) >>> inode.blkbits
          ∈ iop.uptodate)) := by
  have hbs : 0 < 2 ^ inode.blkbits := Nat.two_pow_pos _
  have hszpos : 0 < folio.size := Nat.two_pow_pos folio.sizeBits
  have hszdvd : 2 ^ inode.blkbits ∣ folio.size := pow_dvd_pow 2 hb
  simp only [iomap_adjust_read_range, offset_in_folio, Nat.shiftRight_eq_div_pow]
  set bs := 2 ^ inode.blkbits with hbsdef
  set poff0 := pos % folio.size with hpoff0def
  set plen0 := min (folio.size - poff0) length with hplen0def
  have hpoffdvd : bs ∣ poff0 := (Nat.dvd_mod_iff hszdvd).mpr hpos
  have hpofflt : poff0 < folio.size := Nat.mod_lt _ hszpos
  have hplen0dvd : bs ∣ plen0 := by
    rcases min_cases (folio.size - poff0) length with ⟨hm, _⟩ | ⟨hm, _⟩ <;>
      rw [hplen0def, hm]
    · exact Nat.dvd_sub' hszdvd hpoffdvd
    · exact hlen
  have hplen0pos : 0 < plen0 := lt_min (by omega) hlen0
  obtain ⟨F, hF⟩ := hpoffdvd
  obtain ⟨M, hM⟩ := hplen0dvd
  have hM1 : 1 ≤ M := by
    rcases M with _ | M'
    · simp at hM; omega
    · omega
  have hfirst : poff0 / bs = F := by rw [hF, Nat.mul_div_cancel_left _ hbs]
  have hmulFM : bs * (F + M - 1) + bs = bs * F + bs * M := by
    have h2 : F + M - 1 + 1 = F + M := by omega
    calc bs * (F + M - 1) + bs = bs * (F + M - 1 + 1) := by ring
      _ = bs * (F + M) := by rw [h2]
      _ = bs * F + bs * M := by rw [Nat.mul_add]
  have hdecomp : poff0 + plen0 - 1 = bs * (F + M - 1) + (bs - 1) := by omega
  have hlast : (poff0 + plen0 - 1) / bs = F + M - 1 := by
    rw [hdecomp, Nat.mul_add_div hbs, Nat.div_eq_of_lt (by omega), Nat.add_zero]
  rcases hiop : to_iomap_page folio with _ | iop
  · simp only
    refine ⟨le_refl _, by omega, le_refl _, ?_, ?_⟩
    · split
      · split
        · omega
        · omega
      · omega
    · intro iop h
      exact absurd h (by simp)
  · simp only
    rw [hfirst, hlast]
    set n := leadSkip iop.uptodate F (F + M - 1) with hndef
    have hn2 : n = leadSkipAux iop.uptodate M F := by
      rw [hndef]
      unfold leadSkip
      congr 1
      omega
    have hnle : n ≤ M := by
      rw [hn2]
      exact leadSkipAux_le iop.uptodate M F
    have hcomm_n : n * bs = bs * n := Nat.mul_comm n bs
    have hFn : bs * (F + n) = bs * F + bs * n := Nat.mul_add bs F n
    have hFM : bs * (F + M) = bs * F + bs * M := Nat.mul_add bs F M
    have hMn : bs * (M - n) + bs * n = bs * M := by
      rw [← Nat.mul_add]
      congr 1
      omega
    have hnbs : n * bs ≤ plen0 := by omega
    have hlead : ∀ k, poff0 ≤ k → k < poff0 + n * bs → k / bs ∈ iop.uptodate := by
      intro k hk1 hk2
      have hcommF : F * bs = bs * F := Nat.mul_comm F bs
      have hkF : F ≤ k / bs := (Nat.le_div_iff_mul_le hbs).mpr (by omega)
      have hcommFn : (F + n) * bs = bs * (F + n) := Nat.mul_comm _ _
      have hkFn : k / bs < F + n := (Nat.div_lt_iff_lt_mul hbs).mpr (by omega)
      have h9 := leadSkipAux_mem iop.uptodate M F (k / bs - F) (by rw [← hn2]; omega)
      have h10 : F + (k / bs - F) = k / bs := by omega
      rwa [h10] at h9
    set endB := offset_in_folio_i folio ((inode.isize : Int) - 1) / bs with hendB
    set fs := firstSet iop.uptodate (F + n) (F + M - 1) with hfsdef
    clear_value fs
    have hfscount : F + M - 1 + 1 - (F + n) = M - n := by omega
    rcases hfs : fs with _ | j
    · -- no valid block after the leading run
      have hfs' : firstSetAux iop.uptodate (M - n) (F + n) = none := by
        have := hfsdef.symm.trans hfs
        unfold firstSet at this
        rwa [hfscount] at this
      have hnone := firstSetAux_none iop.uptodate (M - n) (F + n) hfs'
      simp only
      refine ⟨by omega, by omega, by omega, ?_, ?_⟩
      · split
        · split
          · omega
          · omega
        · omega
      · intro iop' hiop'
        obtain rfl : iop = iop' := by simpa using hiop'
        refine ⟨fun k hk1 hk2 => hlead k hk1 hk2, ?_, ?_⟩
        · intro k hk1 hk2
          have hpf : (if pos ≤ inode.isize ∧ inode.isize < pos + length then
              (if F + n ≤ endB ∧ endB < F + M - 1 then
                plen0 - n * bs - (F + M - 1 - endB) * bs else plen0 - n * bs)
              else plen0 - n * bs) ≤ plen0 - n * bs := by
            split
            · split
              · omega
              · omega
            · omega
          have hk2' : k < poff0 + n * bs + (plen0 - n * bs) := by omega
          have hcommFn : (F + n) * bs = bs * (F + n) := Nat.mul_comm _ _
          have hkge : F + n ≤ k / bs := (Nat.le_div_iff_mul_le hbs).mpr (by omega)
          have hcommFM : (F + M) * bs = bs * (F + M) := Nat.mul_comm _ _
          have hklt : k / bs < F + M := (Nat.div_lt_iff_lt_mul hbs).mpr (by omega)
          exact hnone (k / bs) hkge (by omega)
        · intro hstr
          rw [if_neg hstr]
          left
          omega
    · -- the span is truncated just before valid block j
      have hfs' : firstSetAux iop.uptodate (M - n) (F + n) = some j := by
        have := hfsdef.symm.trans hfs
        unfold firstSet at this
        rwa [hfscount] at this
      obtain ⟨hj1, hj2, hj3, hj4⟩ := firstSetAux_some iop.uptodate (M - n) (F + n) j hfs'
      have hjle : j ≤ F + M - 1 := by omega
      have hc3 : (F + M - 1 - j + 1) * bs = bs * (F + M - j) := by
        rw [(by omega : F + M - 1 - j + 1 = F + M - j), Nat.mul_comm]
      have hjsplit : bs * (j - (F + n)) + bs * (F + M - j) = bs * (M - n) := by
        rw [← Nat.mul_add]
        congr 1
        omega
      have hplen2 : plen0 - n * bs - (F + M - 1 - j + 1) * bs = bs * (j - (F + n)) := by
        omega
      have hbsj : bs * (F + n) + bs * (j - (F + n)) = bs * j := by
        rw [← Nat.mul_add]
        congr 1
        omega
      simp only
      refine ⟨by omega, by omega, by omega, ?_, ?_⟩
      · split
        · split
          · omega
          · omega
        · omega
      · intro iop' hiop'
        obtain rfl : iop = iop' := by simpa using hiop'
        refine ⟨fun k hk1 hk2 => hlead k hk1 hk2, ?_, ?_⟩
        · intro k hk1 hk2
          have hpf : (if pos ≤ inode.isize ∧ inode.isize < pos + length then
              (if F + n ≤ endB ∧ endB < j - 1 then
                plen0 - n * bs - (F + M - 1 - j + 1) * bs - (j - 1 - endB) * bs
                else plen0 - n * bs - (F + M - 1 - j + 1) * bs)
              else plen0 - n * bs - (F + M - 1 - j + 1) * bs) ≤ bs * (j - (F + n)) := by
            split
            · split
              · omega
              · omega
            · omega
          have hcommFn : (F + n) * bs = bs * (F + n) := Nat.mul_comm _ _
          have hkge : F + n ≤ k / bs := (Nat.le_div_iff_mul_le hbs).mpr (by omega)
          have hcommj : j * bs = bs * j := Nat.mul_comm _ _
          have hklt : k / bs < j := (Nat.div_lt_iff_lt_mul hbs).mpr (by omega)
          exact hj4 (k / bs) hkge hklt
        · intro hstr
          rw [if_neg hstr]
          right
          have hsum : poff0 + n * bs + (plen0 - n * bs - (F + M - 1 - j + 1) * bs) =
              bs * j := by omega
          rw [hsum, Nat.mul_div_cancel_left _ hbs]
          exact hj3

/-- Witness for C3 on an aligned whole-folio request over `folio_b1`. -/
theorem c3_adjust_read_range_witness :
    inode_1k.blkbits ≤ folio_b1.sizeBits ∧ (2 ^ inode_1k.blkbits ∣ 0) ∧
    (2 ^ inode_1k.blkbits ∣ 4096) ∧ (0 : Nat) < 4096 ∧
    (iomap_adjust_read_range inode_1k folio_b1 0 4096).poff +
        (iomap_adjust_read_range inode_1k folio_b1 0 4096).plen ≤
      offset_in_folio folio_b1 0 +
        min (folio_b1.size - offset_in_folio folio_b1 0) 4096 :=
  ⟨by decide, by decide, by decide, by decide,
    (c3_adjust_read_range inode_1k folio_b1 0 4096 (by decide) (by decide) (by decide)
      (by decide)).2.2.2.1⟩

/-! ## C1: the bitmap-full / uptodate-flag invariant -/

/-- The invariant ignores the locked flag. -/
theorem inv_unlock (inode : Inode) (f : Folio) :
    bitmap_flag_inv inode (unlock_folio f) = bitmap_flag_inv inode f := rfl

/-- The invariant ignores the dirty flag. -/
theorem inv_set_dirty (inode : Inode) (f : Folio) :
    bitmap_flag_inv inode (iomap_set_page_dirty f) = bitmap_flag_inv inode f := rfl

/-- The invariant ignores the writeback flag. -/
theorem inv_end_writeback (inode : Inode) (f : Folio) :
    bitmap_flag_inv inode (end_folio_writeback f) = bitmap_flag_inv inode f := rfl

/-- The invariant ignores the error flag. -/
theorem inv_set_error (inode : Inode) (f : Folio) :
    bitmap_flag_inv inode (SetFolioError f) = bitmap_flag_inv inode f := rfl

/-- The invariant ignores the error flag (clearing direction). -/
theorem inv_clear_error (inode : Inode) (f : Folio) :
    bitmap_flag_inv inode (ClearFolioError f) = bitmap_flag_inv inode f := rfl

/-- The invariant ignores the pending-read byte counter. -/
theorem inv_read_counter (inode : Inode) (f : Folio) (iop : IomapPage) (x : Int)
    (hiop : f.iop = some iop) :
    bitmap_flag_inv inode { f with iop := some { iop with read_bytes_pending := x } } =
      bitmap_flag_inv inode f := by
  unfold bitmap_flag_inv
  rw [hiop]
  rfl

/-- The invariant ignores the pending-write byte counter. -/
theorem inv_write_counter (inode : Inode) (f : Folio) (iop : IomapPage) (x : Int)
    (hiop : f.iop = some iop) :
    bitmap_flag_inv inode { f with iop := some { iop with write_bytes_pending := x } } =
      bitmap_flag_inv inode f := by
  unfold bitmap_flag_inv
  rw [hiop]
  rfl

/-- `iomap_iop_set_range_uptodate` preserves the invariant: it only adds bits,
and it raises the folio flag exactly when the grown bitmap becomes full. -/
theorem inv_iop_set_range (inode : Inode) (folio : Folio) (off len : Nat)
    (hinv : bitmap_flag_inv inode folio = true) :
    bitmap_flag_inv inode (iomap_iop_set_range_uptodate inode folio off len) = true := by
  unfold iomap_iop_set_range_uptodate
  rcases hiop : folio.iop with _ | iop
  · exact hinv
  · simp only
    unfold bitmap_flag_inv at hinv
    rw [hiop] at hinv
    simp only [beq_iff_eq] at hinv
    split
    · rename_i hfull
      simp only [bitmap_flag_inv, SetFolioUptodate]
      simpa [i_blocks_per_folio, Folio.size] using hfull
    · rename_i hfull
      have hsub : iop.uptodate ⊆ bitmap_set iop.uptodate (off >>> inode.blkbits)
          ((off + len - 1) >>> inode.blkbits - off >>> inode.blkbits + 1) :=
        Finset.subset_union_left
      have hnb : bitmap_full iop.uptodate (i_blocks_per_folio inode folio) = false := by
        rcases hb : bitmap_full iop.uptodate (i_blocks_per_folio inode folio) with _ | _
        · rfl
        · exact absurd (bitmap_full_mono hsub _ hb) (by simpa using hfull)
      rw [hnb] at hinv
      simp only [bitmap_flag_inv]
      have hfl : folio.uptodate = false := by
        simpa using hinv.symm
      simpa [i_blocks_per_folio, Folio.size, hfl] using hfull

/-- `iomap_set_range_uptodate` preserves the invariant. -/
theorem inv_set_range (inode : Inode) (folio : Folio) (off len : Nat)
    (hinv : bitmap_flag_inv inode folio = true) :
    bitmap_flag_inv inode (iomap_set_range_uptodate inode folio off len) = true := by
  unfold iomap_set_range_uptodate
  split
  · exact hinv
  · split
    · exact inv_iop_set_range inode folio off len hinv
    · rename_i hpriv
      have hnone : folio.iop = none := by
        rcases hx : folio.iop with _ | iop
        · rfl
        · exact absurd (by simp [folio_has_private, hx]) hpriv
      simp [bitmap_flag_inv, SetFolioUptodate, hnone]

/-- `iomap_page_create` establishes the invariant: a record is only
created for a multi-block folio, filled when the folio is already uptodate
and empty otherwise. -/
theorem inv_page_create (inode : Inode) (folio : Folio)
    (hinv : bitmap_flag_inv inode folio = true) :
    bitmap_flag_inv inode (iomap_page_create inode folio) = true := by
  unfold iomap_page_create
  by_cases hc : folio.iop.isSome = true ∨ i_blocks_per_folio inode folio ≤ 1
  · rw [if_pos hc]
    exact hinv
  · rw [if_neg hc]
    rw [not_or] at hc
    by_cases hu : folio.uptodate
    · simp [bitmap_flag_inv, hu, bitmap_fill, bitmap_full, i_blocks_per_folio, Folio.size]
    · simp only [bitmap_flag_inv, Bool.not_eq_true] at hu ⊢
      simp only [hu, if_false]
      have h2 : ¬ i_blocks_per_folio inode folio ≤ 1 := hc.2
      simp [bitmap_full, i_blocks_per_folio, Folio.size, Finset.subset_empty,
        Finset.range_eq_empty_iff, hu] at h2 ⊢
      omega

/-- Success-path read completion preserves the invariant. -/
theorem inv_finish_read_ok (inode : Inode) (folio : Folio) (off len : Nat)
    (hinv : bitmap_flag_inv inode folio = true) :
    bitmap_flag_inv inode (iomap_finish_folio_read inode folio off len 0) = true := by
  unfold iomap_finish_folio_read
  simp only [ne_eq, not_true_eq_false, if_false, reduceIte]
  have h1 := inv_set_range inode folio off len hinv
  rcases hiop : (iomap_set_range_uptodate inode folio off len).iop with _ | iop1
  · rw [inv_unlock]
    exact h1
  · simp only
    split
    · rw [inv_unlock, inv_read_counter inode _ iop1 _ hiop]
      exact h1
    · rw [inv_read_counter inode _ iop1 _ hiop]
      exact h1

/-- The error branch of read completion always clears the folio's uptodate
flag (so the flag-implies-bitmap-full direction survives trivially). -/
theorem finish_read_err_clears_flag (inode : Inode) (folio : Folio) (off len : Nat)
    (e : Int) (he : e ≠ 0) :
    (iomap_finish_folio_read inode folio off len e).uptodate = false := by
  unfold iomap_finish_folio_read
  rw [if_pos he]
  rcases hiop : folio.iop with _ | iop1
  · simp [SetFolioError, ClearFolioUptodate, unlock_folio, hiop]
  · simp only [SetFolioError, ClearFolioUptodate, hiop]
    split <;> rfl

/-- The error branch of read completion preserves the invariant whenever the
bitmap is not already full. -/
theorem inv_finish_read_err (inode : Inode) (folio : Folio) (off len : Nat)
    (e : Int) (he : e ≠ 0) (hnf : iop_bitmap_full inode folio = false) :
    bitmap_flag_inv inode (iomap_finish_folio_read inode folio off len e) = true := by
  unfold iomap_finish_folio_read
  rw [if_pos he]
  rcases hiop : folio.iop with _ | iop1
  · simp [bitmap_flag_inv, SetFolioError, ClearFolioUptodate, unlock_folio, hiop]
  · have hfull : bitmap_full iop1.uptodate (2 ^ folio.sizeBits >>> inode.blkbits)
        = false := by
      unfold iop_bitmap_full at hnf
      rw [hiop] at hnf
      simpa [i_blocks_per_folio, Folio.size] using hnf
    simp only [SetFolioError, ClearFolioUptodate, hiop]
    split <;>
      simp [bitmap_flag_inv, unlock_folio, i_blocks_per_folio, Folio.size, hfull]

/-- Every iteration of the `__iomap_write_begin` loop preserves the
invariant: each step either leaves the folio alone or applies mark_valid. -/
theorem inv_write_begin_loop (inode : Inode) (srcmap : Iomap) (rs : Nat → Int)
    (fromOff toOff : Nat) (unshare : Bool) (block_end : Nat) :
    ∀ (fuel : Nat) (folio : Folio) (block_start : Nat),
      bitmap_flag_inv inode folio = true →
      bitmap_flag_inv inode
        ((__iomap_write_begin_loop inode srcmap rs fromOff toOff unshare block_end
          fuel folio block_start).2) = true := by
  intro fuel
  induction fuel with
  | zero => intro folio bs h; exact h
  | succ n ih =>
    intro folio bs h
    simp only [__iomap_write_begin_loop]
    split_ifs <;>
      first
        | exact h
        | exact inv_set_range inode folio _ _ h
        | exact ih _ _ h
        | exact ih _ _ (inv_set_range inode folio _ _ h)

/-- `__iomap_write_begin` preserves the invariant. -/
theorem inv_write_begin (inode : Inode) (pos len : Nat) (unshare : Bool)
    (folio : Folio) (srcmap : Iomap) (rs : Nat → Int)
    (hinv : bitmap_flag_inv inode folio = true) :
    bitmap_flag_inv inode
      ((__iomap_write_begin inode pos len unshare folio srcmap rs).2) = true := by
  unfold __iomap_write_begin
  dsimp only
  have hc := inv_page_create inode folio hinv
  split
  · exact hc
  · exact inv_write_begin_loop inode srcmap rs _ _ unshare _ _ _ _
      (by rw [inv_clear_error]; exact hc)

/-- `__iomap_write_end` preserves the invariant. -/
theorem inv_write_end_sub (inode : Inode) (pos len copied : Nat) (folio : Folio)
    (hinv : bitmap_flag_inv inode folio = true) :
    bitmap_flag_inv inode ((__iomap_write_end inode pos len copied folio).2) = true := by
  unfold __iomap_write_end
  split
  · exact hinv
  · rw [inv_set_dirty]
    exact inv_set_range inode folio _ _ hinv

/-- `iomap_write_end` preserves the invariant. -/
theorem inv_write_end (inode : Inode) (pos len copied : Nat) (folio : Folio)
    (iomap srcmap : Iomap) (hinv : bitmap_flag_inv inode folio = true) :
    bitmap_flag_inv inode
      ((iomap_write_end inode pos len copied folio iomap srcmap).2.2.1) = true := by
  unfold iomap_write_end
  dsimp only
  split
  · rw [inv_unlock]
    exact hinv
  · split
    · rw [inv_unlock]
      unfold block_write_end
      dsimp only
      split
      · exact hinv
      · exact hinv
    · rw [inv_unlock]
      exact inv_write_end_sub inode pos len copied folio hinv

/-- `iomap_finish_folio_write` preserves the invariant for any completion
status. -/
theorem inv_finish_write (inode : Inode) (folio : Folio) (len : Nat) (e : Int)
    (hinv : bitmap_flag_inv inode folio = true) :
    bitmap_flag_inv inode (iomap_finish_folio_write inode folio len e) = true := by
  unfold iomap_finish_folio_write
  by_cases he : e ≠ 0
  · rw [if_pos he]
    rcases hiop : folio.iop with _ | iop1
    · simp [bitmap_flag_inv, SetFolioError, end_folio_writeback, hiop]
    · have h2 : bitmap_full iop1.uptodate (2 ^ folio.sizeBits >>> inode.blkbits) =
          folio.uptodate := by
        unfold bitmap_flag_inv at hinv
        rw [hiop] at hinv
        simpa [i_blocks_per_folio, Folio.size] using hinv
      simp only [SetFolioError, hiop]
      split <;>
        simp [bitmap_flag_inv, end_folio_writeback, i_blocks_per_folio, Folio.size, h2]
  · rw [if_neg he]
    dsimp only
    rcases hiop : folio.iop with _ | iop1
    · rw [inv_end_writeback]
      exact hinv
    · dsimp only
      split
      · rw [inv_end_writeback, inv_write_counter inode folio iop1 _ hiop]
        exact hinv
      · rw [inv_write_counter inode folio iop1 _ hiop]
        exact hinv

/-- Counterexample to C1 as stated: a folio with a full bitmap and the
uptodate flag set satisfies the invariant, but the error branch of read
completion (`iomap_finish_folio_read` with a nonzero error) clears the flag
without clearing the bitmap, leaving the equivalence false. -/
theorem c1_counterexample :
    bitmap_flag_inv inode_512 folio_full8 = true ∧
    bitmap_flag_inv inode_512 (iomap_finish_folio_read inode_512 folio_full8 0 512 (-5))
      = false := by
  refine ⟨by decide, by decide⟩

/-- C1 amended: for every folio satisfying bitmap-full ⇔ uptodate-flag, the
equivalence is preserved by mark_valid (both entry points), by successful
read completion, by write-begin, by both write-end layers and by writeback
completion with any status; the read-completion error branch preserves it
only when the bitmap is not already full, and in general guarantees only the
flag ⇒ bitmap-full direction, since it clears the flag but not the bitmap. -/
theorem c1_uptodate_invariant (inode : Inode) (folio : Folio) (off len : Nat)
    (e : Int) (pos wlen copied : Nat) (unshare : Bool) (srcmap iomap : Iomap)
    (rs : Nat → Int) (hinv : bitmap_flag_inv inode folio = true) :
    bitmap_flag_inv inode (iomap_iop_set_range_uptodate inode folio off len) = true ∧
    bitmap_flag_inv inode (iomap_set_range_uptodate inode folio off len) = true ∧
    bitmap_flag_inv inode (iomap_finish_folio_read inode folio off len 0) = true ∧
    (e ≠ 0 → (iomap_finish_folio_read inode folio off len e).uptodate = false) ∧
    (e ≠ 0 → iop_bitmap_full inode folio = false →
      bitmap_flag_inv inode (iomap_finish_folio_read inode folio off len e) = true) ∧
    bitmap_flag_inv inode
      ((__iomap_write_begin inode pos wlen unshare folio srcmap rs).2) = true ∧
    bitmap_flag_inv inode ((__iomap_write_end inode pos wlen copied folio).2) = true ∧
    bitmap_flag_inv inode
      ((iomap_write_end inode pos wlen copied folio iomap srcmap).2.2.1) = true ∧
    bitmap_flag_inv inode (iomap_finish_folio_write inode folio len e) = true ∧
    bitmap_flag_inv inode (iomap_finish_folio_write inode folio len 0) = true :=
  ⟨inv_iop_set_range inode folio off len hinv,
   inv_set_range inode folio off len hinv,
   inv_finish_read_ok inode folio off len hinv,
   fun he => finish_read_err_clears_flag inode folio off len e he,
   fun he hnf => inv_finish_read_err inode folio off len e he hnf,
   inv_write_begin inode pos wlen unshare folio srcmap rs hinv,
   inv_write_end_sub inode pos wlen copied folio hinv,
   inv_write_end inode pos wlen copied folio iomap srcmap hinv,
   inv_finish_write inode folio len e hinv,
   inv_finish_write inode folio len 0 hinv⟩

/-- Witness for C1, at a 4-block folio with one valid block (invariant
holds, bitmap not full: mark_valid and the error branch of read completion
both preserve the invariant there) and at a fully-uptodate 8-block folio
(write-end preserves the invariant there). -/
theorem c1_uptodate_invariant_witness :
    bitmap_flag_inv inode_1k folio_b1 = true ∧ ((-5 : Int) ≠ 0) ∧
    iop_bitmap_full inode_1k folio_b1 = false ∧
    bitmap_flag_inv inode_1k (iomap_iop_set_range_uptodate inode_1k folio_b1 0 1024)
      = true ∧
    bitmap_flag_inv inode_1k (iomap_finish_folio_read inode_1k folio_b1 0 1024 (-5))
      = true ∧
    bitmap_flag_inv inode_512 folio_full8 = true ∧
    bitmap_flag_inv inode_512 ((__iomap_write_end inode_512 0 512 512 folio_full8).2)
      = true :=
  ⟨by decide, by decide, by decide,
    (c1_uptodate_invariant inode_1k folio_b1 0 1024 (-5) 0 1024 1024 false
      map_mapped map_mapped rs_ok (by decide)).1,
    (c1_uptodate_invariant inode_1k folio_b1 0 1024 (-5) 0 1024 1024 false
      map_mapped map_mapped rs_ok (by decide)).2.2.2.2.1 (by decide) (by decide),
    by decide,
    (c1_uptodate_invariant inode_512 folio_full8 0 512 (-5) 0 512 512 false
      map_mapped map_mapped rs_ok (by decide)).2.2.2.2.2.2.1⟩

/-! ## C5: the read actor's zeroing path -/

/-- C9: `iomap_readpage` returns 0 for every folio and every behaviour of
the extent iterator; when the very first iterator call fails (returns ≤ 0),
the failure surfaces only as the folio's error flag. -/
theorem c9_readpage_returns_zero
    (applyFn : Nat → Nat → ReadCtx × Folio → Int × ReadCtx × Folio) (folio : Folio) :
    (iomap_readpage applyFn folio).1 = 0 ∧
    (0 < folio.size →
      (applyFn (folio_offset folio) folio.size (ctx_empty, folio)).1 ≤ 0 →
      (iomap_readpage applyFn folio).2.2.error = true) := by
  constructor
  · unfold iomap_readpage
    dsimp only
    split <;> rfl
  · intro hsz hfail
    simp only [ctx_empty] at hfail
    unfold iomap_readpage
    simp only [iomap_readpage_loop, Nat.add_zero, Nat.sub_zero, hsz, if_true]
    rw [if_pos hfail]
    split <;> simp [SetFolioError, unlock_folio]

/-- Witness for C9: an always-failing iterator still yields return value 0,
with only the error flag set. -/
theorem c9_readpage_returns_zero_witness :
    0 < folio_plain.size ∧
    (apply_fail (folio_offset folio_plain) folio_plain.size (ctx_empty, folio_plain)).1 ≤ 0 ∧
    (iomap_readpage apply_fail folio_plain).2.2.error = true :=
  ⟨by decide, by decide,
    (c9_readpage_returns_zero apply_fail folio_plain).2 (by decide) (by decide)⟩

end Iomap
